import Mathlib

/-!
Verification development for the conlang-generator core (`src/app.js`).

The JavaScript core is shallowly embedded as executable Lean definitions.
Randomness: every `Math.random()` call in the source consumes one abstract
draw from a stream `RS := List Nat`.  A draw `r` used at an index site
`Math.floor(Math.random() * n)` is interpreted as `r % n` (all indices in
`[0, n)` are realizable); a draw used at a threshold site
`Math.random() < p` is interpreted as `r % 1000 < p‰` (the float in `[0,1)`
is abstracted at per-mille granularity; both outcomes are realizable for
thresholds strictly between 0 and 1, which covers the configurations used
in the theorems below).  Strings are modelled at codepoint granularity,
matching JavaScript's string iterator (`for...of`, `Array.from`).
-/

/-- Abstract stream of random draws; one entry per `Math.random()` call. -/
abbrev RS := List Nat

/-- Consume one draw from the stream. -/
def draw (rs : RS) : Nat × RS := (rs.headD 0, rs.drop 1)

/-- `s.slice(1, -1)`: drop the first and last codepoint (used only to
strip the `/` delimiters of a stored IPA form). -/
def sliceInner (s : String) : String := ⟨(s.data.drop 1).dropLast⟩

/-- A phonological rewrite rule, `{from, to}` in the source
(`from` and `to` are Lean keywords, hence the primed field names). -/
structure PhonRule where
  from' : String
  to' : String

/-- `languageState.phonology.tones`. -/
structure ToneConfig where
  enabled : Bool
  count : Nat

/-- `languageState.phonology`. -/
structure PhonologyConfig where
  consonants : List String
  vowels : List String
  syllableStructures : List String
  phonologicalRules : List PhonRule
  tones : ToneConfig

/-- A dictionary entry as built by `Lexicon.generate`
(`gender: null` is modelled as `none`). -/
structure LexEntry where
  ipa : String
  roman : String
  pos : String
  meaning : String
  gender : Option String

/-- A derivational morpheme `{type, form, func}`. -/
structure Morpheme where
  type : String
  form : String
  func : String

/-- `languageState.lexicon`. -/
structure LexiconConfig where
  semanticFields : List String
  rootCount : Nat
  loanwordsEnabled : Bool

/-- `languageState.morphoSyntax`.  The source stores `irregularityRate` as a
float in `[0,1]`; it is modelled in per-mille (`0.05 ↦ 50`), matching the
draw abstraction described in the module docstring. -/
structure MorphoSyntaxConfig where
  wordOrder : String
  adjectiveOrder : String
  caseMarking : String
  irregularityRatePm : Nat
  derivationalMorphemes : List Morpheme
  grammaticalGender : String
  genderAgreement : Bool

/-- `languageState.generated.grammar`; `tenses` keeps the object's key
insertion order (`past`, `present`, `future`), as `Object.keys` does. -/
structure GrammarTable where
  subjectMarker : String
  objectMarker : String
  pluralMarker : String
  tenses : List (String × String)

namespace Phonology

/-- `Phonology.ipaToRomanMap`, as an association list in source order. -/
def ipaTable : List (Char × String) :=
  [('p', "p"), ('t', "t"), ('k', "k"), ('b', "b"), ('d', "d"), ('g', "g"),
   ('m', "m"), ('n', "n"), ('s', "s"), ('z', "z"), ('h', "h"), ('r', "r"),
   ('j', "y"), ('w', "w"), ('a', "a"), ('i', "i"), ('u', "u"), ('e', "e"),
   ('o', "o"), ('ʃ', "sh"), ('ʧ', "ch"), ('ʤ', "j"), ('ŋ', "ng"),
   ('θ', "th"), ('ð', "dh"), ('¹', "¹"), ('²', "²"), ('³', "³"),
   ('⁴', "⁴"), ('⁵', "⁵"), ('⁶', "⁶"), ('⁷', "⁷"), ('⁸', "⁸"), ('⁹', "⁹")]

/-- One character through the table; `ipaToRomanMap[char] || char`. -/
def ipaToRoman (c : Char) : String :=
  ((ipaTable.find? (fun e => e.1 = c)).map (fun e => e.2)).getD (String.singleton c)

/-- `Phonology.romanize`: map every codepoint through the table, unmapped
codepoints pass through unchanged. -/
def romanize (ipaStr : String) : String :=
  String.join (ipaStr.data.map ipaToRoman)

/-- A token of the restricted regex-source sublanguage the rule engine
actually generates: a literal codepoint or a `[...]` character class. -/
inductive Tok where
  | lit (c : Char)
  | cls (cs : List Char)
deriving DecidableEq

/-- Parser for the restricted regex-source sublanguage (literals plus
`[...]` classes).  The second argument is `some acc` while inside an open
class.  An unterminated `[` and any `(`/`)` are compile failures, as in
JavaScript's `new RegExp` (general group syntax is outside the model). -/
def parseGo : List Char → Option (List Char) → List Tok → Option (List Tok)
  | [], some _, _ => none
  | [], none, toks => some toks.reverse
  | c :: rest, some acc, toks =>
    if c = ']' then parseGo rest none (Tok.cls acc.reverse :: toks)
    else parseGo rest (some (c :: acc)) toks
  | c :: rest, none, toks =>
    if c = '[' then parseGo rest (some []) toks
    else if c = '(' ∨ c = ')' then none
    else parseGo rest none (Tok.lit c :: toks)

/-- Compile a pattern source string into a token sequence (or fail). -/
def parsePat (cs : List Char) : Option (List Tok) :=
  parseGo cs none []

/-- `s.replace("V", cls)`: JavaScript's string-argument `String.replace`
replaces only the first occurrence. -/
def replaceFirstV : List Char → List Char → List Char
  | [], _ => []
  | c :: rest, cls => if c = 'V' then cls ++ rest else c :: replaceFirstV rest cls

/-- `s.split(sep)` for a one-codepoint separator (the source only splits
on `">"` and `"_"`), at codepoint level. -/
def splitOnChar (sep : Char) : List Char → List (List Char)
  | [] => [[]]
  | c :: rest =>
    if c = sep then [] :: splitOnChar sep rest
    else
      match splitOnChar sep rest with
      | [] => [[c]]
      | h :: t => (c :: h) :: t

/-- `s.trim()` (ASCII whitespace; the rule texts at issue contain none
beyond spaces). -/
def trimChars (cs : List Char) : List Char :=
  ((cs.dropWhile Char.isWhitespace).reverse.dropWhile Char.isWhitespace).reverse

/-- The class source text `"[" + vowels.join("") + "]"`. -/
def vowelClass (vowels : List String) : List Char :=
  '[' :: (String.join vowels).data ++ [']']

/-- A compiled rule: lookbehind tokens, match tokens, lookahead tokens,
replacement text.  `none` for an absent (falsy, i.e. empty) context part. -/
structure CompiledRule where
  beforeT : Option (List Tok)
  matchT : List Tok
  afterT : Option (List Tok)
  repl : String
deriving DecidableEq

/-- Compile an optional context part. -/
def parseCtxPart : Option (List Char) → Option (Option (List Tok))
  | none => some none
  | some cs =>
    match parsePat cs with
    | none => none
    | some ts => some (some ts)

/-- Compilation step of one rule (`applyPhonologicalRules` lines 126-136).
`rule.from` is split on `>`; a missing replacement part is JavaScript's
`undefined`, which `String.replace` coerces to the text `"undefined"`.
If the context contains `_` it is split into before/after parts, each with
its first `V` replaced by the vowel character class; an empty part is falsy
and contributes no constraint.  Any part that fails to parse makes the
whole rule fail to compile (the `new RegExp` throw caught at line 138). -/
def compileRule (vowels : List String) (r : PhonRule) : Option CompiledRule :=
  let parts := (splitOnChar '>' r.from'.data).map trimChars
  let m := parts.headD []
  let repl : String := ⟨(parts.get? 1).getD "undefined".data⟩
  let context := r.to'.data
  if context.contains '_' then
    let cparts := splitOnChar '_' context
    let before := cparts.headD []
    let after := (cparts.get? 1).getD []
    let beforeOpt : Option (List Char) :=
      if before = [] then none else some (replaceFirstV before (vowelClass vowels))
    let afterOpt : Option (List Char) :=
      if after = [] then none else some (replaceFirstV after (vowelClass vowels))
    match parsePat m, parseCtxPart beforeOpt, parseCtxPart afterOpt with
    | some mt, some bt, some aft => some ⟨bt, mt, aft, repl⟩
    | _, _, _ => none
  else
    match parsePat m with
    | some mt => some ⟨none, mt, none, repl⟩
    | none => none

/-- One token against one codepoint.  An empty class (from an empty vowel
inventory) matches nothing, as in JavaScript. -/
def tokMatches (t : Tok) (c : Char) : Bool :=
  match t with
  | .lit l => c == l
  | .cls cs => cs.contains c

/-- Token sequence matches at absolute position `i` (each token consumes
exactly one codepoint). -/
def toksMatchAt : List Tok → List Char → Nat → Bool
  | [], _, _ => true
  | t :: ts, cs, i =>
    match cs.get? i with
    | some c => tokMatches t c && toksMatchAt ts cs (i + 1)
    | none => false

/-- Full rule match at position `i`: lookbehind just before `i`, match at
`i`, lookahead just after the match — lookarounds check the original
string without consuming it, as `(?<=...)`/`(?=...)` do. -/
def ruleMatchesAt (cr : CompiledRule) (cs : List Char) (i : Nat) : Bool :=
  (match cr.beforeT with
   | none => true
   | some bt => decide (bt.length ≤ i) && toksMatchAt bt cs (i - bt.length)) &&
  toksMatchAt cr.matchT cs i &&
  (match cr.afterT with
   | none => true
   | some aft => toksMatchAt aft cs (i + cr.matchT.length))

/-- Global (`g`-flag) replace scan: walk the original string left to right,
emit the replacement at each non-overlapping match (an empty match keeps
the current codepoint and advances by one, including the final empty match
at end of string, as JavaScript's global replace does).  `fuel` only bounds
the recursion; `word.length + 1` steps always suffice. -/
def applyGo (cr : CompiledRule) (cs : List Char) : Nat → Nat → List Char
  | 0, _ => []
  | fuel + 1, i =>
    match cs.get? i with
    | none => if ruleMatchesAt cr cs i then cr.repl.data else []
    | some c =>
      if ruleMatchesAt cr cs i then
        if cr.matchT.isEmpty then cr.repl.data ++ c :: applyGo cr cs fuel (i + 1)
        else cr.repl.data ++ applyGo cr cs fuel (i + cr.matchT.length)
      else c :: applyGo cr cs fuel (i + 1)

/-- `newWord.replace(regex, replacement)` for a compiled rule. -/
def applyCompiled (cr : CompiledRule) (word : String) : String :=
  ⟨applyGo cr word.data (word.data.length + 1) 0⟩

/-- One iteration of the `forEach` in `applyPhonologicalRules`: a rule that
fails to compile is skipped (the `catch` branch), leaving the word
unchanged. -/
def applyRule (vowels : List String) (word : String) (r : PhonRule) : String :=
  match compileRule vowels r with
  | none => word
  | some cr => applyCompiled cr word

/-- `Phonology.applyPhonologicalRules`: fold every rule, in declaration
order, over the accumulated result. -/
def applyPhonologicalRules (phon : PhonologyConfig) (word : String) : String :=
  phon.phonologicalRules.foldl (applyRule phon.vowels) word

/-- The character loop of `generateWord` (lines 103-110): one uniformly
drawn consonant per `C`, one vowel per `V`, any other template codepoint
contributes nothing. -/
def syllableStep (phon : PhonologyConfig) (acc : String × RS) (ch : Char) : String × RS :=
  let (w, s) := acc
  if ch = 'C' then
    let (r, s') := draw s
    (w ++ phon.consonants.getD (r % phon.consonants.length) "", s')
  else if ch = 'V' then
    let (r, s') := draw s
    (w ++ phon.vowels.getD (r % phon.vowels.length) "", s')
  else (w, s)

/-- `generateWord`'s template-filling loop, folding `syllableStep` over
the template's codepoints starting from the empty word. -/
def buildSyllable (phon : PhonologyConfig) (struct : String) (rs : RS) : String × RS :=
  struct.data.foldl (syllableStep phon) ("", rs)

/-- `Phonology.generateWord`: `null` on an empty inventory or template set;
otherwise pick a template, fill it, apply the phonological rules, and, if
tones are enabled, append `String.fromCodePoint(0x2070 + tone)` for a tone
drawn from `1..count`. -/
def generateWord (phon : PhonologyConfig) (rs : RS) : Option String × RS :=
  if phon.consonants = [] ∨ phon.vowels = [] ∨ phon.syllableStructures = [] then
    (none, rs)
  else
    let (r, rs1) := draw rs
    let struct := phon.syllableStructures.getD (r % phon.syllableStructures.length) ""
    let (word, rs2) := buildSyllable phon struct rs1
    let finalWord := applyPhonologicalRules phon word
    if phon.tones.enabled then
      let (t, rs3) := draw rs2
      let tone := t % phon.tones.count + 1
      (some (finalWord.push (Char.ofNat (0x2070 + tone))), rs3)
    else (some finalWord, rs2)

/-- `Phonology.sourceLoanwords`. -/
def sourceLoanwords : List String :=
  ["computer", "internet", "phone", "radio", "television", "music", "art",
   "game", "food", "water"]

/-- `Phonology._findClosestSound` (its first parameter is unused in the
source and therefore omitted): the first candidate present in the
inventory, else the inventory's first element, else `""`. -/
def findClosestSound (candidates inventory : List String) : String :=
  match candidates.find? (fun c => inventory.contains c) with
  | some c => c
  | none => inventory.headD ""

/-- The `soundMap` of `Phonology.assimilate`, as a function of the source
codepoint; codepoints outside the map contribute `""` (silently dropped). -/
def assimChar (cons vows : List String) (c : Char) : String :=
  if c = 'p' then findClosestSound ["p", "b", "f"] cons
  else if c = 'b' then findClosestSound ["b", "p", "v"] cons
  else if c = 't' then findClosestSound ["t", "d", "s"] cons
  else if c = 'd' then findClosestSound ["d", "t", "z"] cons
  else if c = 'k' then findClosestSound ["k", "g", "h", "x"] cons
  else if c = 'c' then findClosestSound ["k", "g", "s"] cons
  else if c = 'g' then findClosestSound ["g", "k", "ʤ"] cons
  else if c = 'f' then findClosestSound ["f", "p", "v"] cons
  else if c = 'v' then findClosestSound ["v", "b", "f"] cons
  else if c = 's' then findClosestSound ["s", "z", "t", "ʃ"] cons
  else if c = 'z' then findClosestSound ["z", "s", "d"] cons
  else if c = 'm' then findClosestSound ["m", "n"] cons
  else if c = 'n' then findClosestSound ["n", "m", "ŋ"] cons
  else if c = 'l' then findClosestSound ["l", "r", "j"] cons
  else if c = 'r' then findClosestSound ["r", "l", "d"] cons
  else if c = 'h' then findClosestSound ["h"] cons
  else if c = 'j' then findClosestSound ["ʤ", "g", "z"] cons
  else if c = 'y' then findClosestSound ["j", "i"] (cons ++ vows)
  else if c = 'w' then findClosestSound ["w", "u"] (cons ++ vows)
  else if c = 'q' then findClosestSound ["k", "g"] cons
  else if c = 'x' then findClosestSound ["s", "z"] cons
  else if c = 'a' then findClosestSound ["a", "e", "o"] vows
  else if c = 'e' then findClosestSound ["e", "i", "a"] vows
  else if c = 'i' then findClosestSound ["i", "e", "u"] vows
  else if c = 'o' then findClosestSound ["o", "u", "a"] vows
  else if c = 'u' then findClosestSound ["u", "o", "i"] vows
  else ""

/-- `Phonology.assimilate`: identity when either inventory is empty,
otherwise lowercase the word and map every codepoint through the sound
map. -/
def assimilate (phon : PhonologyConfig) (word : String) : String :=
  if phon.consonants = [] ∨ phon.vowels = [] then word
  else String.join ((word.data.map Char.toLower).map (assimChar phon.consonants phon.vowels))

end Phonology

namespace MorphoSyntax

/-- `MorphoSyntax.applyDerivation`: regular affixation.  The returned
object carries no `gender` key, modelled as `none`. -/
def applyDerivation (word : LexEntry) (morpheme : Morpheme) : LexEntry :=
  let baseIpa := sliceInner word.ipa
  if morpheme.type = "prefix" then
    { ipa := "/" ++ (morpheme.form ++ baseIpa) ++ "/"
      roman := Phonology.romanize morpheme.form ++ word.roman
      pos := morpheme.func
      meaning := word.meaning ++ " (" ++ morpheme.func ++ ")"
      gender := none }
  else
    { ipa := "/" ++ (baseIpa ++ morpheme.form) ++ "/"
      roman := word.roman ++ Phonology.romanize morpheme.form
      pos := morpheme.func
      meaning := word.meaning ++ " (" ++ morpheme.func ++ ")"
      gender := none }

/-- Placeholder entry for out-of-range list access (never reached when the
noun pool is non-empty, which the caller's guard ensures). -/
def defaultEntry : LexEntry := ⟨"", "", "", "", none⟩

/-- The object-selection loop of `generateSentence` (lines 399-402): draw,
then redraw while the drawn noun's `roman` equals the subject's.  The
source loop is unbounded; `fuel` bounds the model, and `none` means the
loop has not terminated within `fuel` draws. -/
def pickObject (nouns : List LexEntry) (subjRoman : String) :
    Nat → RS → Option LexEntry × RS
  | 0, rs => (none, rs)
  | fuel + 1, rs =>
    let r := (draw rs).1
    let rs1 := (draw rs).2
    let obj := nouns.getD (r % nouns.length) defaultEntry
    if obj.roman = subjRoman then pickObject nouns subjRoman fuel rs1
    else (some obj, rs1)

/-- The fixed insufficiency sentinel returned by `generateSentence`. -/
def insufficientVocab : String := "辞書に単語が不足しています。"

/-- The adjective block of `generateSentence` (lines 405-426): with the
50% coin (only drawn when adjectives exist) pick an adjective, add the
gender-agreement suffix when enabled and the subject is gendered, and
place it per `adjectiveOrder`.  Returns the subject phrase, the
human-readable subject for the gloss, and the remaining stream. -/
def chooseSubjectPhrase (adjectives : List LexEntry) (ms : MorphoSyntaxConfig)
    (subject : LexEntry) (rs : RS) : String × String × RS :=
  if adjectives.length > 0 then
    let (rCoin, rsA) := draw rs
    if 500 < rCoin % 1000 then
      let (rAdj, rsB) := draw rsA
      let adjective := adjectives.getD (rAdj % adjectives.length) defaultEntry
      let adjectiveForm :=
        if ms.genderAgreement ∧ ms.grammaticalGender ≠ "none" then
          match subject.gender with
          | some "masculine" => adjective.roman ++ "-" ++ "o"
          | some "feminine" => adjective.roman ++ "-" ++ "a"
          | some "neuter" => adjective.roman ++ "-" ++ "e"
          | _ => adjective.roman
        else adjective.roman
      if ms.adjectiveOrder = "AN" then
        (adjectiveForm ++ " " ++ subject.roman,
         adjective.meaning ++ " " ++ subject.meaning, rsB)
      else
        (subject.roman ++ " " ++ adjectiveForm,
         adjective.meaning ++ " " ++ subject.meaning, rsB)
    else (subject.roman, subject.meaning, rsA)
  else (subject.roman, subject.meaning, rs)

/-- The case-marking `switch` of `generateSentence` (lines 432-445),
applied identically to the subject phrase and the object form; an
unrecognized marking falls through with no marking. -/
def applyCaseMarking (caseMarking marker phrase : String) : String :=
  if caseMarking = "suffix" then phrase ++ "-" ++ marker
  else if caseMarking = "prefix" then marker ++ "-" ++ phrase
  else if caseMarking = "postposition" then phrase ++ " " ++ marker
  else phrase

/-- `MorphoSyntax.generateSentence`.  Returns `some sentence`, or `none`
only when the object-selection loop fails to terminate within `fuel`
draws.  `Array.prototype.join` renders `undefined` constituents (word-order
characters other than `S`/`O`/`V`) as the empty string. -/
def generateSentence (dict : List LexEntry) (ms : MorphoSyntaxConfig)
    (grammar : GrammarTable) (rs : RS) (fuel : Nat) : Option String :=
  let nouns := dict.filter (fun w => w.pos = "noun")
  let verbs := dict.filter (fun w => w.pos = "verb")
  let adjectives := dict.filter (fun w => w.pos = "adjective")
  if nouns.length < 2 ∨ verbs.length < 1 then some insufficientVocab
  else
    let subject := nouns.getD ((draw rs).1 % nouns.length) defaultEntry
    match pickObject nouns subject.roman fuel (draw rs).2 with
    | (none, _) => none
    | (some object, rs2) =>
      let verb := verbs.getD ((draw rs2).1 % verbs.length) defaultEntry
      let spr := chooseSubjectPhrase adjectives ms subject (draw rs2).2
      let sFinal := applyCaseMarking ms.caseMarking grammar.subjectMarker spr.1
      let oFinal := applyCaseMarking ms.caseMarking grammar.objectMarker object.roman
      let rTense := (draw spr.2.2).1
      let tensePair := grammar.tenses.getD (rTense % grammar.tenses.length) ("", "")
      let vFinal := verb.roman ++ "-" ++ tensePair.2
      let orderedSentence :=
        String.intercalate " "
          (ms.wordOrder.data.map (fun c =>
            if c = 'S' then sFinal
            else if c = 'O' then oFinal
            else if c = 'V' then vFinal
            else ""))
      some (orderedSentence ++ ". ('The " ++ spr.2.1 ++ " " ++
        verb.meaning ++ " (" ++ tensePair.1 ++ ") the " ++ object.meaning ++ "')")

end MorphoSyntax

namespace Lexicon

/-- `Lexicon.semanticFieldMap`. -/
def semanticFieldMap : List (String × String) :=
  [("自然", "nature"), ("動物", "animals"), ("感情", "emotions"),
   ("行動", "actions"), ("道具", "tools"), ("社会", "society"),
   ("思考", "concepts"), ("身体", "body"), ("食物", "food"), ("場所", "places")]

/-- `Lexicon.SemanticDictionary`. -/
def semanticDictionary : List (String × List String) :=
  [("nature",
    ["sun", "moon", "star", "sky", "earth", "sea", "river", "mountain", "tree",
     "flower", "rain", "wind", "snow", "fire", "water", "stone", "cloud",
     "forest", "desert", "island", "valley", "lightning", "sand"]),
   ("animals",
    ["dog", "cat", "bird", "fish", "horse", "bear", "wolf", "lion", "tiger",
     "snake", "insect", "spider", "eagle", "mouse", "cow", "sheep",
     "monkey", "deer", "fox", "rabbit", "bee", "butterfly"]),
   ("emotions",
    ["love", "hate", "joy", "sadness", "anger", "fear", "surprise", "hope",
     "pride", "shame", "calm", "anxiety", "courage", "desire", "trust",
     "pity", "envy", "gratitude", "guilt", "curiosity"]),
   ("actions",
    ["go", "come", "eat", "drink", "sleep", "see", "hear", "speak", "run",
     "walk", "give", "take", "make", "do", "know", "think", "love", "work",
     "play", "sing", "die", "live", "fight", "read", "write"]),
   ("tools",
    ["knife", "hammer", "axe", "rope", "wheel", "boat", "net", "needle",
     "sword", "shield", "bow", "arrow", "pen", "book", "cup", "pot", "key",
     "clock", "mirror", "lamp", "plow", "cart", "bridge", "road"]),
   ("society",
    ["person", "man", "woman", "child", "family", "king", "queen", "law",
     "war", "peace", "city", "house", "village", "god", "money", "art",
     "music", "story", "name", "word", "language", "friend", "enemy", "chief"]),
   ("concepts",
    ["time", "space", "life", "death", "good", "evil", "truth", "lie",
     "beauty", "power", "knowledge", "freedom", "justice", "luck", "dream",
     "soul", "mind", "idea", "change", "order", "chaos", "number"]),
   ("body",
    ["head", "face", "eye", "ear", "nose", "mouth", "hand", "foot", "heart",
     "blood", "bone", "skin", "hair", "voice", "leg", "arm", "finger", "tooth"]),
   ("food",
    ["bread", "meat", "fruit", "seed", "salt", "honey", "milk", "egg",
     "root", "leaf", "berry", "grain", "wine", "oil", "cheese", "herb"]),
   ("places",
    ["home", "market", "temple", "field", "cave", "port", "castle",
     "tower", "wall", "gate", "tomb", "throne", "garden", "lake", "shore"])]

/-- The meaning-selection `while` loop of `Lexicon.generate` (lines
263-284).  One step: look up the current field cyclically; a recognized
field draws an unused meaning from its category (when one remains), an
unrecognized field contributes its literal text once.  The loop breaks
once `rootCount` meanings are collected or when `fieldIndex` passes
`2*rootCount` without having collected enough (the starvation guard); the
`fuel` parameter is only the structural bound `2*rootCount + 2`, which the
guard makes sufficient.  (With an empty field list the source reads
`undefined` and pushes it once as a meaning; the model's `getD` default
`""` plays that role.) -/
def selectMeaningsGo (fields : List String) (rootCount : Nat) :
    Nat → Nat → List String → List String → RS → List String × RS
  | 0, _, meanings, _, rs => (meanings, rs)
  | fuel + 1, fieldIndex, meanings, used, rs =>
    if meanings.length < rootCount then
      let fieldName := fields.getD (fieldIndex % fields.length) ""
      let step :=
        match (semanticFieldMap.find? (fun e => e.1 = fieldName)).bind
          (fun e => semanticDictionary.find? (fun d => d.1 = e.2)) with
        | some d =>
          let availableWords := d.2.filter (fun w => ¬ used.contains w)
          if availableWords.length > 0 then
            let (r, rs1) := draw rs
            let chosenMeaning := availableWords.getD (r % availableWords.length) ""
            (meanings ++ [chosenMeaning], used ++ [chosenMeaning], rs1)
          else (meanings, used, rs)
        | none =>
          if ¬ used.contains fieldName then
            (meanings ++ [fieldName], used ++ [fieldName], rs)
          else (meanings, used, rs)
      let fieldIndex1 := fieldIndex + 1
      if fieldIndex1 > rootCount * 2 ∧ step.1.length < rootCount then (step.1, step.2.2)
      else selectMeaningsGo fields rootCount fuel fieldIndex1 step.1 step.2.1 step.2.2
    else (meanings, rs)

/-- Entry point of the meaning-selection loop. -/
def selectMeanings (fields : List String) (rootCount : Nat) (rs : RS) :
    List String × RS :=
  selectMeaningsGo fields rootCount (rootCount * 2 + 2) 0 [] [] rs

/-- The `do..while` retry loop of `Lexicon.generate` (lines 289-294):
synthesize a word, break on a falsy result — JavaScript's `if (!ipa)`
covers both `null` and the empty string — otherwise retry while the
romanized form collides and fewer than 10 attempts were made.  Called with
fuel 10; returns the last `(ipa, roman)` pair (which may still collide —
the caller re-checks) or `none` when synthesis returned a falsy value (the
outer `if (!ipa || ...) continue` then drops the meaning). -/
def mintLoop (phon : PhonologyConfig) (romans : List String) :
    Nat → RS → Option (String × String) × RS
  | 0, rs => (none, rs)
  | fuel + 1, rs =>
    match Phonology.generateWord phon rs with
    | (none, rs1) => (none, rs1)
    | (some ipa, rs1) =>
      if ipa = "" then (none, rs1)
      else
        let roman := Phonology.romanize ipa
        if romans.contains roman ∧ fuel ≠ 0 then mintLoop phon romans fuel rs1
        else (some (ipa, roman), rs1)

/-- The base-entry loop of `Lexicon.generate` (lines 286-311): per meaning,
mint a form (10 attempts), drop the meaning on exhaustion or `null`,
otherwise record the roman, draw a part of speech, draw a gender for nouns
when grammatical gender is enabled, and append the entry. -/
def synthGo (phon : PhonologyConfig) (ms : MorphoSyntaxConfig) :
    List String → List String → List LexEntry → RS → List LexEntry × RS
  | [], _, dict, rs => (dict, rs)
  | meaning :: rest, romans, dict, rs =>
    match mintLoop phon romans 10 rs with
    | (none, rs1) => synthGo phon ms rest romans dict rs1
    | (some (ipa, roman), rs1) =>
      if romans.contains roman then synthGo phon ms rest romans dict rs1
      else
        let rs2 := (draw rs1).2
        let wordPos := ["noun", "verb", "adjective"].getD ((draw rs1).1 % 3) ""
        let genderStep : Option String × RS :=
          if wordPos = "noun" ∧ ms.grammaticalGender ≠ "none" then
            let genders :=
              if ms.grammaticalGender = "mf" then ["masculine", "feminine"]
              else ["masculine", "feminine", "neuter"]
            (some (genders.getD ((draw rs2).1 % genders.length) ""), (draw rs2).2)
          else (none, rs2)
        synthGo phon ms rest (romans ++ [roman])
          (dict ++ [⟨"/" ++ ipa ++ "/", roman, wordPos, meaning, genderStep.1⟩])
          genderStep.2

/-- The irregular-derivation branch (lines 318-336): guarded by a
non-empty vowel inventory, draw a random vowel, find the last vowel of the
base IPA (characters compared against the vowel inventory as one-character
strings), and splice the drawn vowel string in its place.  `none` when the
branch pushes nothing. -/
def deriveIrregular (phon : PhonologyConfig) (word : LexEntry)
    (morpheme : Morpheme) (rs : RS) : Option LexEntry × RS :=
  if phon.vowels.length > 0 then
    let baseIpa := sliceInner word.ipa
    let (r, rs1) := draw rs
    let randomVowel := phon.vowels.getD (r % phon.vowels.length) ""
    let lastVowelIndex :=
      ((List.range baseIpa.data.length).filter
        (fun i => phon.vowels.contains (String.singleton (baseIpa.data.getD i ' ')))).getLast?
    match lastVowelIndex with
    | none => (none, rs1)
    | some i =>
      let newIpa : String :=
        ⟨baseIpa.data.take i ++ randomVowel.data ++ baseIpa.data.drop (i + 1)⟩
      (some { ipa := "/" ++ newIpa ++ "/"
              roman := Phonology.romanize newIpa
              pos := morpheme.func
              meaning := word.meaning ++ " (irregular " ++ morpheme.func ++ ")"
              gender := word.gender }, rs1)
  else (none, rs)

/-- One (morpheme, word) step of the derivation pass (lines 316-342):
with probability 0.5 attempt a derivation, within that with probability
`irregularityRate` the irregular variant, else the regular affixed form. -/
def deriveForWord (phon : PhonologyConfig) (ms : MorphoSyntaxConfig)
    (morpheme : Morpheme) (word : LexEntry) (acc : List LexEntry × RS) :
    List LexEntry × RS :=
  let (derived, rs) := acc
  let (r1, rs1) := draw rs
  if r1 % 1000 < 500 then
    let (r2, rs2) := draw rs1
    if r2 % 1000 < ms.irregularityRatePm then
      match deriveIrregular phon word morpheme rs2 with
      | (none, rs3) => (derived, rs3)
      | (some e, rs3) => (derived ++ [e], rs3)
    else (derived ++ [MorphoSyntax.applyDerivation word morpheme], rs2)
  else (derived, rs1)

/-- The nested `forEach` derivation pass (lines 313-343): morphemes outer,
base entries inner, accumulating derived entries in iteration order. -/
def derivePass (phon : PhonologyConfig) (ms : MorphoSyntaxConfig)
    (baseDict : List LexEntry) (rs : RS) : List LexEntry × RS :=
  ms.derivationalMorphemes.foldl
    (fun acc m => baseDict.foldl (fun acc2 w => deriveForWord phon ms m w acc2) acc)
    ([], rs)

/-- The loanword loop (lines 349-363): per iteration draw a source word,
assimilate and romanize it, and append it only when the roman is non-empty
(truthy) and not already present anywhere in the dictionary. -/
def loanGo (phon : PhonologyConfig) : Nat → List LexEntry → RS → List LexEntry × RS
  | 0, dict, rs => (dict, rs)
  | n + 1, dict, rs =>
    let rs1 := (draw rs).2
    let sourceWord :=
      Phonology.sourceLoanwords.getD ((draw rs).1 % Phonology.sourceLoanwords.length) ""
    let assimilatedIpa := Phonology.assimilate phon sourceWord
    let assimilatedRoman := Phonology.romanize assimilatedIpa
    if assimilatedRoman ≠ "" ∧ ¬ dict.any (fun w => w.roman = assimilatedRoman) then
      loanGo phon n
        (dict ++ [⟨"/" ++ assimilatedIpa ++ "/", assimilatedRoman, "noun",
                   sourceWord ++ " (loanword)", none⟩]) rs1
    else loanGo phon n dict rs1

/-- The source's local `newDictionary` (lines 256-311): the base entries
produced by meaning selection followed by the synthesis loop, together
with the remaining draw stream. -/
def newDictionary (phon : PhonologyConfig) (lex : LexiconConfig)
    (ms : MorphoSyntaxConfig) (rs : RS) : List LexEntry × RS :=
  let sel := selectMeanings lex.semanticFields lex.rootCount rs
  synthGo phon ms sel.1 [] [] sel.2

/-- The source's local `derivedWords` (lines 313-343): the derivation pass
over the base entries, with the remaining draw stream. -/
def derivedWords (phon : PhonologyConfig) (lex : LexiconConfig)
    (ms : MorphoSyntaxConfig) (rs : RS) : List LexEntry × RS :=
  derivePass phon ms (newDictionary phon lex ms rs).1 (newDictionary phon lex ms rs).2

/-- `Lexicon.generate`: meanings, base entries, derivation pass, then the
loanword pass when enabled.  `floor(rootCount * 0.05)` is modelled as
`rootCount / 20` (the float product never crosses an integer boundary for
the representable rates involved).  Returns the final dictionary. -/
def generate (phon : PhonologyConfig) (lex : LexiconConfig)
    (ms : MorphoSyntaxConfig) (rs : RS) : List LexEntry × RS :=
  let dictionary := (newDictionary phon lex ms rs).1 ++ (derivedWords phon lex ms rs).1
  if lex.loanwordsEnabled then
    loanGo phon (max 1 (lex.rootCount / 20)) dictionary (derivedWords phon lex ms rs).2
  else (dictionary, (derivedWords phon lex ms rs).2)

end Lexicon

/-! ## Shared helper lemmas -/

/-- An in-range `getD` at a reduced index is a member of the list. -/
theorem getD_mod_mem {α : Type} (l : List α) (n : Nat) (d : α) (h : l ≠ []) :
    l.getD (n % l.length) d ∈ l := by
  have hlt : n % l.length < l.length := Nat.mod_lt _ (List.length_pos.mpr h)
  rw [List.getD_eq_getElem?_getD, List.getElem?_eq_getElem hlt]
  exact List.getElem_mem hlt

/-- `String.join` distributes over `cons`. -/
theorem join_cons (a : String) (l : List String) :
    String.join (a :: l) = a ++ String.join l := by
  apply String.ext
  simp [String.join_eq, String.data_append]

/-- `String.intercalate` on a three-element list. -/
theorem intercalate_three (a b c : String) :
    String.intercalate " " [a, b, c] = a ++ " " ++ b ++ " " ++ c := by
  simp [String.intercalate, String.intercalate.go, String.append_assoc]

/-! ## C4: sequential composition of phonological rules -/

/-- C4: Phonological rules compose sequentially — each rule is applied to
the accumulated result of the prior rules, not to the original word (the
fold in `applyPhonologicalRules`) — and in particular applying the single
rule `{from: "n>m", to: "_p"}` to the word `"anpa"` with vowel inventory
`["a"]` yields `"ampa"`. -/
theorem rules_compose_sequentially :
    (∀ (vowels : List String) (w : String) (r : PhonRule) (rest : List PhonRule),
      List.foldl (Phonology.applyRule vowels) w (r :: rest) =
        List.foldl (Phonology.applyRule vowels) (Phonology.applyRule vowels w r) rest) ∧
    Phonology.applyPhonologicalRules
      ⟨[], ["a"], [], [⟨"n>m", "_p"⟩], ⟨false, 3⟩⟩ "anpa" = "ampa" :=
  ⟨fun _ _ _ _ => rfl, by decide⟩

/-! ## C5: malformed rules are skipped, subsequent rules still apply -/

/-- C5: a rule whose pattern fails to compile leaves the word unchanged
and every subsequent rule is still applied: folding the rule list equals
folding the list with the malformed rule removed.  (The model's
`applyRule` is the `try`/`catch` body: a `compileRule` failure is the
caught `new RegExp` exception, and rule application is a total function —
nothing throws or aborts.) -/
theorem malformed_rule_skipped (vowels : List String) (w : String)
    (pre post : List PhonRule) (r : PhonRule)
    (h : Phonology.compileRule vowels r = none) :
    List.foldl (Phonology.applyRule vowels) w (pre ++ r :: post) =
      List.foldl (Phonology.applyRule vowels) w (pre ++ post) := by
  rw [List.foldl_append, List.foldl_append, List.foldl_cons]
  simp [Phonology.applyRule, h]

/-- Witness for C5 at a concrete malformed rule (`"(>m"` is an unmatched
group, a JavaScript `SyntaxError`). -/
theorem malformed_rule_skipped_witness :
    Phonology.compileRule [] ⟨"(>m", "x"⟩ = none ∧
    List.foldl (Phonology.applyRule []) "anpa"
        ([⟨"n>m", "_p"⟩] ++ (⟨"(>m", "x"⟩ : PhonRule) :: [⟨"p>b", ""⟩]) =
      List.foldl (Phonology.applyRule []) "anpa" ([⟨"n>m", "_p"⟩] ++ [⟨"p>b", ""⟩]) :=
  ⟨by decide,
   malformed_rule_skipped [] "anpa" [⟨"n>m", "_p"⟩] [⟨"p>b", ""⟩] ⟨"(>m", "x"⟩ (by decide)⟩

/-! ## C8: word synthesis on empty configuration -/

/-- C8: `generateWord` returns `null` (and, being a total function, does
not throw) whenever the consonant inventory, the vowel inventory, or the
syllable-template set is empty; it never returns a string then. -/
theorem generateWord_none_of_empty (phon : PhonologyConfig) (rs : RS)
    (h : phon.consonants = [] ∨ phon.vowels = [] ∨ phon.syllableStructures = []) :
    (Phonology.generateWord phon rs).1 = none := by
  simp only [Phonology.generateWord]
  rw [if_pos h]

/-- Witness for C8 at a concrete empty-consonant configuration. -/
theorem generateWord_none_of_empty_witness :
    (Phonology.generateWord ⟨[], ["a"], ["CV"], [], ⟨false, 3⟩⟩ [0, 0, 0]).1 = none :=
  generateWord_none_of_empty _ _ (Or.inl rfl)

/-! ## C6: sentence composition fails gracefully on insufficient vocabulary -/

/-- C6: with fewer than 2 nouns or no verb, `generateSentence` returns the
fixed insufficiency sentinel (a total function — no exception), and the
result is independent of the grammar table (markers and tenses), i.e. the
table is never read. -/
theorem generateSentence_insufficient (dict : List LexEntry)
    (ms : MorphoSyntaxConfig) (g g' : GrammarTable) (rs : RS) (fuel : Nat)
    (h : (dict.filter (fun w => w.pos = "noun")).length < 2 ∨
         (dict.filter (fun w => w.pos = "verb")).length < 1) :
    MorphoSyntax.generateSentence dict ms g rs fuel =
        some MorphoSyntax.insufficientVocab ∧
      MorphoSyntax.generateSentence dict ms g rs fuel =
        MorphoSyntax.generateSentence dict ms g' rs fuel := by
  constructor
  · simp only [MorphoSyntax.generateSentence]
    rw [if_pos h]
  · simp only [MorphoSyntax.generateSentence]
    rw [if_pos h, if_pos h]

/-- Witness for C6 on the empty dictionary and two different grammar
tables. -/
theorem generateSentence_insufficient_witness :
    MorphoSyntax.generateSentence [] ⟨"SOV", "AN", "suffix", 50, [], "none", false⟩
        ⟨"ga", "wo", "t", [("past", "ta")]⟩ [0] 1 =
      some MorphoSyntax.insufficientVocab ∧
    MorphoSyntax.generateSentence [] ⟨"SOV", "AN", "suffix", 50, [], "none", false⟩
        ⟨"ga", "wo", "t", [("past", "ta")]⟩ [0] 1 =
      MorphoSyntax.generateSentence [] ⟨"SOV", "AN", "suffix", 50, [], "none", false⟩
        ⟨"xx", "yy", "z", []⟩ [0] 1 :=
  generateSentence_insufficient [] _ _ _ [0] 1 (Or.inl (by decide))

/-! ## C3: tone markers -/

/-- C3 (code bug): with tones enabled and count 1, the synthesized word
gets exactly one appended codepoint `0x2070 + 1 = U+2071`; but `U+2071` is
the superscript letter i, not the superscript numeral `¹` (`U+00B9`), and
it is absent from `ipaToRomanMap` — contradicting the table's own
self-mapped glyph set `¹..⁹` (the same slip sends tones 2 and 3 to the
unassigned codepoints `U+2072`/`U+2073`; tones 4-9 do land on `⁴..⁹`). -/
theorem tone_marker_glyph_mismatch :
    (Phonology.generateWord ⟨["p"], ["a"], ["CV"], [], ⟨true, 1⟩⟩ [0, 0, 0, 0]).1 =
      some ("pa".push (Char.ofNat 0x2071)) ∧
    Char.ofNat 0x2071 ≠ '¹' ∧
    (Phonology.ipaTable.map Prod.fst).contains (Char.ofNat 0x2071) = false ∧
    (Phonology.ipaTable.map Prod.fst).contains '¹' = true :=
  ⟨by decide, by decide, by decide, by decide⟩

/-! ## C2: synthesized word length vs. template length -/

/-- C2 (counterexample): the app's own Japanese preset template `"CVN"`
(and likewise any multi-codepoint inventory symbol) breaks the claim: with
non-empty inventories `["p"]`/`["a"]` and template set `["CVN"]`, the
chosen template has length 3 but the synthesized pre-rule word is `"pa"`
of length 2 (the `N` slot emits nothing). -/
theorem word_length_counterexample :
    (Phonology.generateWord ⟨["p"], ["a"], ["CVN"], [], ⟨false, 3⟩⟩ [0, 0, 0]).1 =
      some "pa" ∧
    (Phonology.buildSyllable ⟨["p"], ["a"], ["CVN"], [], ⟨false, 3⟩⟩ "CVN" [0, 0]).1.length ≠
      ("CVN" : String).length :=
  ⟨by decide, by decide⟩

/-- Length invariant of the template-filling fold, generalized over the
initial accumulator. -/
theorem syllable_fold_length (phon : PhonologyConfig)
    (hc : phon.consonants ≠ []) (hv : phon.vowels ≠ [])
    (hc1 : ∀ s ∈ phon.consonants, s.length = 1)
    (hv1 : ∀ s ∈ phon.vowels, s.length = 1) :
    ∀ (cs : List Char) (w : String) (rs : RS),
      (∀ c ∈ cs, c = 'C' ∨ c = 'V') →
      (cs.foldl (Phonology.syllableStep phon) (w, rs)).1.length = w.length + cs.length := by
  intro cs
  induction cs with
  | nil => intro w rs _; simp
  | cons c rest ih =>
    intro w rs h
    rw [List.foldl_cons]
    rcases h c (List.mem_cons_self c rest) with hC | hV
    · subst hC
      have hmem := getD_mod_mem phon.consonants (draw rs).1 "" hc
      have hstep : Phonology.syllableStep phon (w, rs) 'C' =
          (w ++ phon.consonants.getD ((draw rs).1 % phon.consonants.length) "",
           (draw rs).2) := rfl
      rw [hstep, ih _ _ (fun x hx => h x (List.mem_cons_of_mem _ hx)),
        String.length_append, hc1 _ hmem]
      simp [Nat.add_assoc, Nat.add_comm]
    · subst hV
      have hmem := getD_mod_mem phon.vowels (draw rs).1 "" hv
      have hstep : Phonology.syllableStep phon (w, rs) 'V' =
          (w ++ phon.vowels.getD ((draw rs).1 % phon.vowels.length) "",
           (draw rs).2) := rfl
      rw [hstep, ih _ _ (fun x hx => h x (List.mem_cons_of_mem _ hx)),
        String.length_append, hv1 _ hmem]
      simp [Nat.add_assoc, Nat.add_comm]

/-- C2 (amended): for non-empty inventories whose symbols are single
codepoints and a template consisting only of `C`/`V` slots, the pre-rule
synthesized word has exactly the template's length, for every choice of
random draws. -/
theorem synthesized_word_length (phon : PhonologyConfig) (struct : String) (rs : RS)
    (hstruct : ∀ c ∈ struct.data, c = 'C' ∨ c = 'V')
    (hc : phon.consonants ≠ []) (hv : phon.vowels ≠ [])
    (hc1 : ∀ s ∈ phon.consonants, s.length = 1)
    (hv1 : ∀ s ∈ phon.vowels, s.length = 1) :
    (Phonology.buildSyllable phon struct rs).1.length = struct.length := by
  have h := syllable_fold_length phon hc hv hc1 hv1 struct.data "" rs hstruct
  simpa [Phonology.buildSyllable] using h

/-- Witness for the amended C2 at a concrete configuration and template. -/
theorem synthesized_word_length_witness :
    (Phonology.buildSyllable ⟨["p", "t"], ["a"], ["CVC"], [], ⟨false, 3⟩⟩ "CVC"
      [0, 0, 1]).1.length = ("CVC" : String).length :=
  synthesized_word_length _ "CVC" [0, 0, 1] (by decide) (by decide) (by decide)
    (by decide) (by decide)

/-! ## C9: purity and idempotence of romanization -/

/-- C9 (counterexample): romanization is not idempotent on every string:
`romanize "ʤ" = "j"`, but `j` is itself a key of the table (mapped to
`"y"`), so a second pass changes the result. -/
theorem romanize_not_idempotent_on_dj :
    Phonology.romanize (Phonology.romanize "ʤ") ≠ Phonology.romanize "ʤ" := by
  decide

/-- A codepoint absent from the table passes through unchanged. -/
theorem ipaToRoman_not_key (c : Char) (h : ∀ e ∈ Phonology.ipaTable, e.1 ≠ c) :
    Phonology.ipaToRoman c = String.singleton c := by
  unfold Phonology.ipaToRoman
  rw [List.find?_eq_none.mpr]
  · rfl
  · intro e he
    simpa using h e he

/-- `romanize` is the identity on strings all of whose codepoints are
absent from the table (list form). -/
theorem join_map_ipaToRoman_id (cs : List Char)
    (h : ∀ c ∈ cs, ∀ e ∈ Phonology.ipaTable, e.1 ≠ c) :
    String.join (cs.map Phonology.ipaToRoman) = ⟨cs⟩ := by
  induction cs with
  | nil => rfl
  | cons c rest ih =>
    rw [List.map_cons, join_cons, ipaToRoman_not_key c (h c (List.mem_cons_self _ _)),
      ih (fun x hx => h x (List.mem_cons_of_mem _ hx))]
    rfl

/-- `romanize` is the identity on strings all of whose codepoints are
absent from the table. -/
theorem romanize_id_of_absent (s : String)
    (h : ∀ c ∈ s.data, ∀ e ∈ Phonology.ipaTable, e.1 ≠ c) :
    Phonology.romanize s = s := by
  unfold Phonology.romanize
  exact join_map_ipaToRoman_id s.data h

/-- C9 (amended): `romanize` is a pure function (repeated calls agree),
and it is idempotent on every input whose codepoints are absent from the
IPA table — which covers all inputs of Latin characters absent from the
table.  (The further extension to arbitrary strings is refuted by
`"ʤ"`, whose image `"j"` is itself a table key.) -/
theorem romanize_pure_and_restricted_idempotent :
    (∀ s : String, Phonology.romanize s = Phonology.romanize s) ∧
    (∀ s : String, (∀ c ∈ s.data, ∀ e ∈ Phonology.ipaTable, e.1 ≠ c) →
      Phonology.romanize (Phonology.romanize s) = Phonology.romanize s) := by
  refine ⟨fun _ => rfl, fun s h => ?_⟩
  rw [romanize_id_of_absent s h]
  exact romanize_id_of_absent s h

/-- Witness for the amended C9 on the table-free Latin string `"xy"`. -/
theorem romanize_pure_witness :
    Phonology.romanize "xy" = Phonology.romanize "xy" ∧
    Phonology.romanize (Phonology.romanize "xy") = Phonology.romanize "xy" :=
  ⟨romanize_pure_and_restricted_idempotent.1 "xy",
   romanize_pure_and_restricted_idempotent.2 "xy" (by decide)⟩

/-! ## C7: SOV/suffix sentence shape -/

/-- An object returned by the selection loop comes from the noun pool. -/
theorem pickObject_mem (nouns : List LexEntry) (sr : String) (fuel : Nat) :
    ∀ (rs : RS) (obj : LexEntry) (rsOut : RS),
      nouns ≠ [] →
      MorphoSyntax.pickObject nouns sr fuel rs = (some obj, rsOut) → obj ∈ nouns := by
  induction fuel with
  | zero =>
    intro rs obj rsOut _ h
    simp [MorphoSyntax.pickObject] at h
  | succ f ih =>
    intro rs obj rsOut hne h
    simp only [MorphoSyntax.pickObject] at h
    split at h
    · exact ih _ _ _ hne h
    · have h1 := (Prod.mk.injEq _ _ _ _).mp h
      have h2 := Option.some.inj h1.1
      exact h2 ▸ getD_mod_mem _ _ _ hne

/-- Splitting the literal that glues the period to the gloss. -/
theorem period_split (r : String) :
    (". ('The " : String) ++ r = "." ++ (" ('The " ++ r) := by
  rw [← String.append_assoc]
  have h : ("." : String) ++ " ('The " = ". ('The " := by decide
  rw [h]

/-- The sentence tail decomposes as a period followed by the gloss. -/
theorem sentence_assembly (sF oF vF x1 x2 x3 x4 : String) :
    sF ++ " " ++ oF ++ " " ++ vF ++ ". ('The " ++ x1 ++ " " ++ x2 ++ " (" ++
        x3 ++ ") the " ++ x4 ++ "')" =
      sF ++ " " ++ oF ++ " " ++ vF ++ "." ++
        (" ('The " ++ x1 ++ " " ++ x2 ++ " (" ++ x3 ++ ") the " ++ x4 ++ "')") := by
  simp only [String.append_assoc]
  rw [period_split]

/-- C7: with `caseMarking = "suffix"`, `subjectMarker = "ga"`,
`objectMarker = "wo"` and `wordOrder = "SOV"`, every composed sentence is
the subject phrase with `-ga` appended, then an object roman from the noun
pool with `-wo` appended, then a verb roman with `-<tense marker>`
appended, space-joined, followed by a period and then the gloss. -/
theorem sentence_sov_suffix_shape
    (dict : List LexEntry) (ms : MorphoSyntaxConfig) (g : GrammarTable)
    (rs : RS) (fuel : Nat) (s : String)
    (hcm : ms.caseMarking = "suffix") (hwo : ms.wordOrder = "SOV")
    (hsm : g.subjectMarker = "ga") (hom : g.objectMarker = "wo")
    (ht : g.tenses ≠ [])
    (hn : 2 ≤ (dict.filter (fun w => w.pos = "noun")).length)
    (hv : 1 ≤ (dict.filter (fun w => w.pos = "verb")).length)
    (hres : MorphoSyntax.generateSentence dict ms g rs fuel = some s) :
    ∃ (sp oR vR : String) (tense : String × String) (gloss : String),
      s = sp ++ "-" ++ "ga" ++ " " ++ (oR ++ "-" ++ "wo") ++ " " ++
          (vR ++ "-" ++ tense.2) ++ "." ++ gloss ∧
      oR ∈ (dict.filter (fun w => w.pos = "noun")).map LexEntry.roman ∧
      vR ∈ (dict.filter (fun w => w.pos = "verb")).map LexEntry.roman ∧
      tense ∈ g.tenses := by
  have hguard : ¬ ((dict.filter (fun w => w.pos = "noun")).length < 2 ∨
      (dict.filter (fun w => w.pos = "verb")).length < 1) := by
    push_neg
    exact ⟨hn, hv⟩
  simp only [MorphoSyntax.generateSentence] at hres
  rw [if_neg hguard] at hres
  split at hres
  · exact absurd hres (by simp)
  rename_i object rs2 heq
  have hnne : (dict.filter (fun w => w.pos = "noun")) ≠ [] := by
    intro hnil
    rw [hnil] at hn
    simp at hn
  have hvne : (dict.filter (fun w => w.pos = "verb")) ≠ [] := by
    intro hnil
    rw [hnil] at hv
    simp at hv
  have hobj : object ∈ dict.filter (fun w => w.pos = "noun") :=
    pickObject_mem _ _ fuel _ object rs2 hnne heq
  have hverb := getD_mod_mem (dict.filter (fun w => w.pos = "verb"))
    (draw rs2).1 MorphoSyntax.defaultEntry hvne
  have hdata : ("SOV" : String).data = ['S', 'O', 'V'] := rfl
  rw [hwo, hdata] at hres
  simp only [List.map_cons, List.map_nil, reduceIte] at hres
  rw [intercalate_three, hcm] at hres
  simp only [MorphoSyntax.applyCaseMarking, reduceIte] at hres
  rw [hsm, hom, sentence_assembly] at hres
  have hs := Option.some.inj hres
  have htense := getD_mod_mem g.tenses
    ((draw (MorphoSyntax.chooseSubjectPhrase
      (dict.filter (fun w => w.pos = "adjective")) ms
      ((dict.filter (fun w => w.pos = "noun")).getD
        ((draw rs).1 % (dict.filter (fun w => w.pos = "noun")).length)
        MorphoSyntax.defaultEntry) (draw rs2).2).2.2).1) (("", "")) ht
  exact ⟨_, object.roman, _, _, _, hs.symm, List.mem_map_of_mem _ hobj,
    List.mem_map_of_mem _ hverb, htense⟩

/-- Witness for C7 on a concrete three-entry dictionary. -/
theorem sentence_sov_suffix_shape_witness :
    ∃ (sp oR vR : String) (tense : String × String) (gloss : String),
      "na-ga nb-wo va-ta. ('The M1 M3 (past) the M2')" =
          sp ++ "-" ++ "ga" ++ " " ++ (oR ++ "-" ++ "wo") ++ " " ++
          (vR ++ "-" ++ tense.2) ++ "." ++ gloss ∧
      oR ∈ (([⟨"/na/", "na", "noun", "M1", none⟩, ⟨"/nb/", "nb", "noun", "M2", none⟩,
              ⟨"/va/", "va", "verb", "M3", none⟩] : List LexEntry).filter
            (fun w => w.pos = "noun")).map LexEntry.roman ∧
      vR ∈ (([⟨"/na/", "na", "noun", "M1", none⟩, ⟨"/nb/", "nb", "noun", "M2", none⟩,
              ⟨"/va/", "va", "verb", "M3", none⟩] : List LexEntry).filter
            (fun w => w.pos = "verb")).map LexEntry.roman ∧
      tense ∈ (⟨"ga", "wo", "t", [("past", "ta"), ("present", "ru"), ("future", "lu")]⟩ :
          GrammarTable).tenses :=
  sentence_sov_suffix_shape
    [⟨"/na/", "na", "noun", "M1", none⟩, ⟨"/nb/", "nb", "noun", "M2", none⟩,
     ⟨"/va/", "va", "verb", "M3", none⟩]
    ⟨"SOV", "AN", "suffix", 50, [], "none", false⟩
    ⟨"ga", "wo", "t", [("past", "ta"), ("present", "ru"), ("future", "lu")]⟩
    [0, 1, 0, 0] 3 "na-ga nb-wo va-ta. ('The M1 M3 (past) the M2')"
    rfl rfl rfl rfl (by decide) (by decide) (by decide) (by decide)

/-! ## C10: termination of the object-selection loop -/

/-- When every noun shares the subject's romanized form, the redraw loop
never exits: for every fuel and every draw stream it yields no object. -/
theorem pickObject_none_of_all_same (nouns : List LexEntry) (sr : String)
    (hall : ∀ w ∈ nouns, w.roman = sr) (hne : nouns ≠ []) :
    ∀ (fuel : Nat) (rs : RS), (MorphoSyntax.pickObject nouns sr fuel rs).1 = none := by
  intro fuel
  induction fuel with
  | zero => intro rs; rfl
  | succ f ih =>
    intro rs
    simp only [MorphoSyntax.pickObject]
    rw [if_pos (hall _ (getD_mod_mem _ _ _ hne))]
    exact ih _

/-- One successful step of the redraw loop. -/
theorem pickObject_succ_ne (nouns : List LexEntry) (sr : String) (fuel : Nat)
    (rs : RS)
    (h : (nouns.getD ((draw rs).1 % nouns.length) MorphoSyntax.defaultEntry).roman ≠ sr) :
    MorphoSyntax.pickObject nouns sr (fuel + 1) rs =
      (some (nouns.getD ((draw rs).1 % nouns.length) MorphoSyntax.defaultEntry),
       (draw rs).2) := by
  simp only [MorphoSyntax.pickObject]
  rw [if_neg h]

/-- Composition succeeds whenever the object-selection loop returns an
object. -/
theorem generateSentence_some_of_pick (dict : List LexEntry)
    (ms : MorphoSyntaxConfig) (g : GrammarTable) (rs : RS) (fuel : Nat)
    {obj : LexEntry} {rs2 : RS}
    (hguard : ¬ ((dict.filter (fun w => w.pos = "noun")).length < 2 ∨
      (dict.filter (fun w => w.pos = "verb")).length < 1))
    (hpick : MorphoSyntax.pickObject (dict.filter (fun w => w.pos = "noun"))
      ((dict.filter (fun w => w.pos = "noun")).getD
        ((draw rs).1 % (dict.filter (fun w => w.pos = "noun")).length)
        MorphoSyntax.defaultEntry).roman fuel (draw rs).2 = (some obj, rs2)) :
    ∃ s, MorphoSyntax.generateSentence dict ms g rs fuel = some s := by
  simp only [MorphoSyntax.generateSentence]
  rw [if_neg hguard, hpick]
  exact ⟨_, rfl⟩

/-- C10: the two-noun guard alone does not ensure termination of the
unbounded object-redraw loop.  (a) When all nouns share one romanized form
(so the guard passes with ≥ 2 nouns and ≥ 1 verb), composition diverges:
for every fuel and every draw stream the model returns `none`.
(b) When two noun entries have distinct romanized forms (and a verb
exists), composition terminates: draw streams exist on which it returns a
sentence — with genuine randomness the redraw loop exits almost surely. -/
theorem object_selection_termination :
    (∀ (dict : List LexEntry) (ms : MorphoSyntaxConfig) (g : GrammarTable)
        (rs : RS) (fuel : Nat),
      2 ≤ (dict.filter (fun w => w.pos = "noun")).length →
      1 ≤ (dict.filter (fun w => w.pos = "verb")).length →
      (∀ n ∈ dict.filter (fun w => w.pos = "noun"),
        ∀ n' ∈ dict.filter (fun w => w.pos = "noun"), n.roman = n'.roman) →
      MorphoSyntax.generateSentence dict ms g rs fuel = none) ∧
    (∀ (dict : List LexEntry) (ms : MorphoSyntaxConfig) (g : GrammarTable)
        (i j : Nat) (hi : i < (dict.filter (fun w => w.pos = "noun")).length)
        (hj : j < (dict.filter (fun w => w.pos = "noun")).length),
      ((dict.filter (fun w => w.pos = "noun"))[i]).roman ≠
          ((dict.filter (fun w => w.pos = "noun"))[j]).roman →
      1 ≤ (dict.filter (fun w => w.pos = "verb")).length →
      ∃ (rs : RS) (fuel : Nat) (s : String),
        MorphoSyntax.generateSentence dict ms g rs fuel = some s) := by
  constructor
  · intro dict ms g rs fuel hn hv hall
    have hguard : ¬ ((dict.filter (fun w => w.pos = "noun")).length < 2 ∨
        (dict.filter (fun w => w.pos = "verb")).length < 1) := by
      push_neg
      exact ⟨hn, hv⟩
    have hnne : (dict.filter (fun w => w.pos = "noun")) ≠ [] := by
      intro hnil
      rw [hnil] at hn
      simp at hn
    simp only [MorphoSyntax.generateSentence]
    rw [if_neg hguard]
    split
    · rfl
    rename_i object rs2 heq
    have hsubmem := getD_mod_mem (dict.filter (fun w => w.pos = "noun"))
      (draw rs).1 MorphoSyntax.defaultEntry hnne
    have hnone := pickObject_none_of_all_same (dict.filter (fun w => w.pos = "noun"))
      ((dict.filter (fun w => w.pos = "noun")).getD
        ((draw rs).1 % (dict.filter (fun w => w.pos = "noun")).length)
        MorphoSyntax.defaultEntry).roman
      (fun w hw => hall w hw _ hsubmem) hnne fuel (draw rs).2
    rw [heq] at hnone
    simp at hnone
  · intro dict ms g i j hi hj hne hv
    have hij : i ≠ j := by
      intro h
      subst h
      exact hne rfl
    have hn2 : 2 ≤ (dict.filter (fun w => w.pos = "noun")).length := by omega
    have hguard : ¬ ((dict.filter (fun w => w.pos = "noun")).length < 2 ∨
        (dict.filter (fun w => w.pos = "verb")).length < 1) := by
      push_neg
      exact ⟨hn2, hv⟩
    have hneq : ((dict.filter (fun w => w.pos = "noun")).getD
        ((draw ([j, 0, 0, 0] : RS)).1 % (dict.filter (fun w => w.pos = "noun")).length)
        MorphoSyntax.defaultEntry).roman ≠
        ((dict.filter (fun w => w.pos = "noun")).getD
          ((draw ([i, j, 0, 0, 0] : RS)).1 %
            (dict.filter (fun w => w.pos = "noun")).length)
          MorphoSyntax.defaultEntry).roman := by
      have hd1 : (draw ([j, 0, 0, 0] : RS)).1 = j := rfl
      have hd2 : (draw ([i, j, 0, 0, 0] : RS)).1 = i := rfl
      rw [hd1, hd2, Nat.mod_eq_of_lt hi, Nat.mod_eq_of_lt hj,
        List.getD_eq_getElem _ _ hi, List.getD_eq_getElem _ _ hj]
      exact hne.symm
    have hpick := pickObject_succ_ne (dict.filter (fun w => w.pos = "noun"))
      ((dict.filter (fun w => w.pos = "noun")).getD
        ((draw ([i, j, 0, 0, 0] : RS)).1 %
          (dict.filter (fun w => w.pos = "noun")).length)
        MorphoSyntax.defaultEntry).roman 0 [j, 0, 0, 0] hneq
    exact ⟨[i, j, 0, 0, 0], 1,
      generateSentence_some_of_pick dict ms g [i, j, 0, 0, 0] 1 hguard hpick⟩

/-- Witness for C10: (a) two nouns sharing the roman `"na"` pass the guard
yet composition diverges for a concrete stream and fuel; (b) with two
distinct-roman nouns a concrete stream terminates. -/
theorem object_selection_termination_witness :
    MorphoSyntax.generateSentence
        [⟨"/na/", "na", "noun", "M1", none⟩, ⟨"/na2/", "na", "noun", "M2", none⟩,
         ⟨"/va/", "va", "verb", "M3", none⟩]
        ⟨"SOV", "AN", "suffix", 50, [], "none", false⟩
        ⟨"ga", "wo", "t", [("past", "ta")]⟩ [0, 1, 2, 3] 5 = none ∧
    ∃ (rs : RS) (fuel : Nat) (s : String),
      MorphoSyntax.generateSentence
        [⟨"/na/", "na", "noun", "M1", none⟩, ⟨"/nb/", "nb", "noun", "M2", none⟩,
         ⟨"/va/", "va", "verb", "M3", none⟩]
        ⟨"SOV", "AN", "suffix", 50, [], "none", false⟩
        ⟨"ga", "wo", "t", [("past", "ta")]⟩ rs fuel = some s :=
  ⟨object_selection_termination.1 _ _ _ [0, 1, 2, 3] 5 (by decide) (by decide)
    (by decide),
   object_selection_termination.2 _ _ _ 0 1 (by decide) (by decide) (by decide)
    (by decide)⟩

/-! ## C1: uniqueness of romanized forms in one generation pass -/

/-- The base-entry loop preserves distinctness of romanized forms: every
accepted roman is checked against (and then added to) the collision set. -/
theorem synthGo_roman_nodup (phon : PhonologyConfig) (ms : MorphoSyntaxConfig) :
    ∀ (meanings romans : List String) (dict : List LexEntry) (rs : RS),
      (dict.map LexEntry.roman).Nodup →
      (∀ r ∈ dict.map LexEntry.roman, romans.contains r) →
      ((Lexicon.synthGo phon ms meanings romans dict rs).1.map LexEntry.roman).Nodup := by
  intro meanings
  induction meanings with
  | nil =>
    intro romans dict rs hnd _
    exact hnd
  | cons meaning rest ih =>
    intro romans dict rs hnd hsub
    simp only [Lexicon.synthGo]
    split
    · exact ih _ _ _ hnd hsub
    · split
      · exact ih _ _ _ hnd hsub
      · rename_i hc
        apply ih
        · rw [List.map_append, List.nodup_append]
          refine ⟨hnd, by simp, ?_⟩
          intro x hx hx2
          simp only [List.map_cons, List.map_nil, List.mem_singleton] at hx2
          subst hx2
          exact hc (hsub _ hx)
        · intro r hr
          rw [List.map_append, List.mem_append] at hr
          rcases hr with hr | hr
          · exact List.elem_iff.mpr (List.mem_append_left _ (List.elem_iff.mp (hsub r hr)))
          · simp only [List.map_cons, List.map_nil, List.mem_singleton] at hr
            subst hr
            exact List.elem_iff.mpr (List.mem_append_right _ (by simp))

/-- Appending an entry with a fresh roman preserves distinctness of the
tracked (base-plus-loanword) romans. -/
theorem nodup_append_singleton {base loans : List LexEntry} (e : LexEntry)
    (hnd : ((base ++ loans).map LexEntry.roman).Nodup)
    (hnot : e.roman ∉ (base ++ loans).map LexEntry.roman) :
    ((base ++ (loans ++ [e])).map LexEntry.roman).Nodup := by
  rw [← List.append_assoc, List.map_append, List.nodup_append]
  refine ⟨hnd, by simp, ?_⟩
  intro x hx hx2
  simp only [List.map_cons, List.map_nil, List.mem_singleton] at hx2
  subst hx2
  exact hnot hx

/-- The loanword-pass invariant survives appending one loanword whose
roman collides with nothing in the dictionary.  `base` and `derived` are
fixed; only the loanword suffix grows. -/
theorem loan_step_invariant (base derived dict : List LexEntry) (e : LexEntry)
    (h : ∃ loans, dict = base ++ (derived ++ loans) ∧
      ((base ++ loans).map LexEntry.roman).Nodup ∧
      ∀ x ∈ loans, x.roman ∉ (base ++ derived).map LexEntry.roman)
    (hnot : ∀ w ∈ dict, ¬ w.roman = e.roman) :
    ∃ loans, dict ++ [e] = base ++ (derived ++ loans) ∧
      ((base ++ loans).map LexEntry.roman).Nodup ∧
      ∀ x ∈ loans, x.roman ∉ (base ++ derived).map LexEntry.roman := by
  obtain ⟨loans, hdict, hnd, hold⟩ := h
  refine ⟨loans ++ [e], by simp [hdict], ?_, ?_⟩
  · apply nodup_append_singleton e hnd
    intro hmem
    rw [List.mem_map] at hmem
    obtain ⟨w, hw, hwx⟩ := hmem
    apply hnot w ?_ hwx
    rw [hdict, List.mem_append]
    rw [List.mem_append] at hw
    rcases hw with hw | hw
    · exact Or.inl hw
    · exact Or.inr (List.mem_append_right _ hw)
  · intro x hx
    rw [List.mem_append] at hx
    rcases hx with hx | hx
    · exact hold x hx
    · rw [List.mem_singleton] at hx
      subst hx
      intro hmem
      rw [List.mem_map] at hmem
      obtain ⟨w, hw, hwx⟩ := hmem
      apply hnot w ?_ hwx
      rw [hdict, List.mem_append]
      rw [List.mem_append] at hw
      rcases hw with hw | hw
      · exact Or.inl hw
      · exact Or.inr (List.mem_append_left _ hw)

/-- The loanword loop, started on `base ++ (derived ++ loans)`, only ever
appends entries whose roman collides with nothing already present: the
base/derived prefix is untouched, the appended suffix keeps the
base-plus-loanword romans distinct, and every appended roman avoids the
whole base-plus-derived prefix. -/
theorem loanGo_preserves (phon : PhonologyConfig) (base derived : List LexEntry) :
    ∀ (n : Nat) (dict : List LexEntry) (rs : RS),
      (∃ loans, dict = base ++ (derived ++ loans) ∧
        ((base ++ loans).map LexEntry.roman).Nodup ∧
        ∀ e ∈ loans, e.roman ∉ (base ++ derived).map LexEntry.roman) →
      ∃ loans, (Lexicon.loanGo phon n dict rs).1 = base ++ (derived ++ loans) ∧
        ((base ++ loans).map LexEntry.roman).Nodup ∧
        ∀ e ∈ loans, e.roman ∉ (base ++ derived).map LexEntry.roman := by
  intro n
  induction n with
  | zero =>
    intro dict rs h
    exact h
  | succ m ih =>
    intro dict rs h
    simp only [Lexicon.loanGo]
    split
    · rename_i hcond
      apply ih
      apply loan_step_invariant base derived dict _ h
      intro w hw heq2
      have h2 := hcond.2
      rw [List.any_eq_true] at h2
      push_neg at h2
      exact h2 w hw (decide_eq_true heq2)
    · exact ih dict _ h

/-- C1 (amended): the generated dictionary is exactly the base entries
(the source's `newDictionary`), then the derived entries (the source's
`derivedWords`), then a loanword suffix — which the first conjunct pins
uniquely, since a list suffix after a fixed prefix is determined.  The
actual base entries and actual loanwords together never contain two
entries with the same `roman`, and every loanword's roman also differs
from every derived entry's; derived entries themselves are appended with
no deduplication and may repeat romans. -/
theorem lexicon_base_loanword_roman_nodup (phon : PhonologyConfig)
    (lex : LexiconConfig) (ms : MorphoSyntaxConfig) (rs : RS) :
    ∃ loans : List LexEntry,
      (Lexicon.generate phon lex ms rs).1 =
        (Lexicon.newDictionary phon lex ms rs).1 ++
          ((Lexicon.derivedWords phon lex ms rs).1 ++ loans) ∧
      (((Lexicon.newDictionary phon lex ms rs).1 ++ loans).map LexEntry.roman).Nodup ∧
      ∀ e ∈ loans,
        e.roman ∉ ((Lexicon.newDictionary phon lex ms rs).1 ++
          (Lexicon.derivedWords phon lex ms rs).1).map LexEntry.roman := by
  have hbase : ((Lexicon.newDictionary phon lex ms rs).1.map LexEntry.roman).Nodup :=
    synthGo_roman_nodup phon ms
      (Lexicon.selectMeanings lex.semanticFields lex.rootCount rs).1 [] []
      (Lexicon.selectMeanings lex.semanticFields lex.rootCount rs).2
      (by simp) (by simp)
  simp only [Lexicon.generate]
  set B := Lexicon.newDictionary phon lex ms rs with hB
  set D := Lexicon.derivedWords phon lex ms rs with hD
  split
  · obtain ⟨l2, heq, hnd2, hdisj⟩ := loanGo_preserves phon B.1 D.1
      (max 1 (lex.rootCount / 20)) (B.1 ++ D.1) D.2
      ⟨[], by simp, by simpa using hbase, by simp⟩
    exact ⟨l2, heq, hnd2, hdisj⟩
  · exact ⟨[], by simp, by simpa using hbase, by simp⟩

/-- C1 (counterexample): derived entries are not deduplicated.  With
consonants `["p"]`, vowels `["a"]`, template `["CV"]`, one meaning, and
two identical `suffix`-`"t"` morphemes, the pass yields romans
`["pa", "pat", "pat"]` — a duplicate. -/
theorem lexicon_roman_duplicate_counterexample :
    ¬ ((Lexicon.generate ⟨["p"], ["a"], ["CV"], [], ⟨false, 3⟩⟩
        ⟨["自然"], 1, false⟩
        ⟨"SOV", "AN", "suffix", 50, [⟨"suffix", "t", "n"⟩, ⟨"suffix", "t", "n"⟩],
         "none", false⟩
        [0, 0, 0, 0, 0, 0, 999, 0, 999]).1.map LexEntry.roman).Nodup := by
  decide
